import Mathlib

/-!
Shallow embedding of the *talkers* protocol engine (`src/lib.rs`).

The engine (`Talker`) owns a TCP transport.  We model the transport's read
side as a `List RItem` (bytes and read-error items; end of list = EOF), the
write side as the list of bytes written plus a global success flag, callbacks
as presence flags together with the list of events fired, and the `sha2`
streaming hasher as the list of bytes fed to it, digested by an abstract
function `Env.H` standing for SHA-256 (a 32-byte digest in reality; external
`sha2` crate, not part of this repository).  `String::from_utf8_lossy` is
likewise external: the `msgNew` event carries the exact payload bytes that
the source lossy-decodes into the string handed to the callback.
-/

set_option linter.unusedVariables false

namespace Talkers

/-- Error kinds mirroring the `std::io::ErrorKind` values the library touches. -/
inductive EKind where
  | wouldBlock
  | notConnected
  | other
  | invalidData
  | permissionDenied
  | unexpectedEof
  | brokenPipe
deriving DecidableEq

/-- One item offered by the transport's read side: a byte, or a read error of
a given kind.  The end of the list models end-of-stream (a read returning 0). -/
inductive RItem where
  | byte (b : Nat)
  | err (k : EKind)
deriving DecidableEq

/-- Events: one per callback invocation performed by the engine.
`msgNew` carries the raw payload bytes (lossy-decoded to a string by the
source before invoking the callback). -/
inductive Ev where
  | chatClose
  | msgNew (bytes : List Nat)
  | fileFailed (name : String) (k : EKind)
  | fileComplete (name : String)
  | fileHashByPeer (name : String) (digest : List Nat)
  | fileOurHash (name : String) (digest : List Nat)
  | hashOfSent (digest : List Nat)
  | hashRcvd (digest : List Nat)
  | payloadTooLarge (n : Nat)
  | invalidInstr (b : Nat)
deriving DecidableEq

/-- Result of a fallible engine operation: an ordinary return value, a
propagated `io::Error` of some kind, or a process abort (`panic`, produced in
the source by `.expect(...)`). -/
inductive RResult (α : Type) where
  | ok (a : α)
  | err (k : EKind)
  | panicked (msg : String)
deriving DecidableEq

/-- Environment of externals: the SHA-256 digest function of the `sha2` crate,
the nanosecond clock used for transfer-file names, whether creating/writing
the transfer file succeeds, and whether transport writes succeed. -/
structure Env where
  H : List Nat → List Nat
  nanos : Nat
  fcreateOk : Bool
  fwriteOk : Bool
  writeOk : Bool

/-- The engine state: the one-byte pushback queue, the closed flag, the
mandatory `file_incoming` decision function, and presence flags for the
optional callbacks (`true` = the `Option` field is `Some`). -/
structure Talker where
  queue : Option Nat
  closed : Bool
  chat_close : Bool
  msg_new : Bool
  file_incoming : Nat → Bool
  file_failed : Bool
  file_complete : Bool
  file_hash_by_peer : Bool
  file_our_hash : Bool
  hash_of_sent : Bool
  hash_rcvd : Bool
  payload_too_large : Bool
  invalid_instr : Bool

/-- `Talker::new`: empty queue, not closed, no callbacks, and `file_incoming`
defaulting to rejecting every transfer. -/
def Talker.new : Talker :=
  { queue := none
    closed := false
    chat_close := false
    msg_new := false
    file_incoming := fun _ => false
    file_failed := false
    file_complete := false
    file_hash_by_peer := false
    file_our_hash := false
    hash_of_sent := false
    hash_rcvd := false
    payload_too_large := false
    invalid_instr := false }

/-- Successful outcome of `read_once`: its boolean return value, the engine
state afterwards, the remaining transport input, the bytes written to the
transport, and the callback events fired, in order. -/
structure Step where
  ret : Bool
  st : Talker
  input : List RItem
  out : List Nat
  evs : List Ev

/-- `read_exact` into a buffer of `n` bytes: succeeds with the bytes read iff
`n` byte items are available before any error item or EOF.  On failure the
error kind is reported (EOF surfaces as `unexpectedEof`, as in `std`). -/
def readExact : Nat → List RItem → Except EKind (List Nat) × List RItem
  | 0, input => (Except.ok [], input)
  | _ + 1, [] => (Except.error EKind.unexpectedEof, [])
  | n + 1, RItem.byte b :: rest =>
    match readExact n rest with
    | (Except.ok bs, r) => (Except.ok (b :: bs), r)
    | (Except.error k, r) => (Except.error k, r)
  | _ + 1, RItem.err k :: rest => (Except.error k, rest)

/-- The length-field parser loop of `read_once` (source lines 160–182).
Returns `(skip, n_bytes, remaining input)`.  `skip` stays `true` unless a
terminator (`0x0A` or `0x20`) is reached.  The counter `j` of the source
starts at 1 and the loop breaks once `j ≥ 16` after an accepted digit (or a
fruitless iteration), so at most 15 iterations read a byte: `fuel` counts the
remaining iterations and the top-level call passes 15.  An iteration whose
`next()` yields `None` (EOF) consumes nothing but still advances `j`; an
`Err` item is consumed and ignored. -/
def parseLenAux : Nat → List RItem → Nat → Bool × Nat × List RItem
  | 0, input, acc => (true, acc, input)
  | fuel + 1, [], acc => parseLenAux fuel [] acc
  | fuel + 1, RItem.err _ :: rest, acc => parseLenAux fuel rest acc
  | fuel + 1, RItem.byte b :: rest, acc =>
    if b = 10 ∨ b = 32 then (false, acc, rest)
    else if 48 ≤ b ∧ b ≤ 57 then parseLenAux fuel rest (acc * 10 + (b - 48))
    else (true, acc, rest)

/-- Decimal digits of `n`, most significant first (`fuel`-bounded recursion;
`natDigits` below supplies ample fuel). -/
def natDigitsAux : Nat → Nat → List Nat
  | 0, _ => []
  | fuel + 1, n => if n < 10 then [n] else natDigitsAux fuel (n / 10) ++ [n % 10]

def natDigits (n : Nat) : List Nat := natDigitsAux (n + 1) n

/-- The ASCII bytes `format!("{}", n)` produces for a `usize`. -/
def asciiDec (n : Nat) : List Nat := (natDigits n).map (fun d => d + 48)

/-- The payload loop of an accepted file transfer (source lines 208–236):
read chunks of `min n_bytes 1024` bytes with `read_exact`, write each chunk
to the transfer file (firing `file_failed` on a failed write when the file
handle exists and the callback is set), and feed the hasher, until the
announced count is exhausted or a read fails.  Returns the events fired, the
bytes fed to the hasher, and the remaining input.  `fuel` bounds the number
of iterations; callers pass `n_bytes + 1`, which is ample since every
iteration past the first consumes at least one announced byte. -/
def fileLoopAux (env : Env) (hasFp ff : Bool) (filen : String) :
    Nat → Nat → List RItem → List Ev × List Nat × List RItem
  | 0, _, input => ([], [], input)
  | fuel + 1, nb, input =>
    match readExact (min nb 1024) input with
    | (Except.error _, rest) => ([], [], rest)
    | (Except.ok chunk, rest) =>
      let evs : List Ev :=
        if hasFp && !env.fwriteOk && ff && !chunk.isEmpty then
          [Ev.fileFailed filen EKind.permissionDenied]
        else []
      let nb2 := nb - min nb 1024
      if nb2 = 0 then (evs, chunk, rest)
      else
        match fileLoopAux env hasFp ff filen fuel nb2 rest with
        | (evs2, bs, rest2) => (evs ++ evs2, chunk ++ bs, rest2)

/-- The unconditional tail of the `0x21`/`0x23` branch of `read_once`
(source lines 270–283): build `0x3D ++ H(hashed bytes)`, `write_all` it with
`.expect(...)` — a failed write aborts the process — and, for files, fire
`file_our_hash` with the name (empty when the transfer was skipped) and the
digest.  Returns `Ok(true)`. -/
def finishHash (env : Env) (st : Talker) (is_file : Bool) (filen : String)
    (hashed : List Nat) (input : List RItem) (evs : List Ev) : RResult Step :=
  if env.writeOk then
    RResult.ok
      { ret := true, st := st, input := input, out := 61 :: env.H hashed
        evs := evs ++
          (if is_file && st.file_our_hash then [Ev.fileOurHash filen (env.H hashed)] else []) }
  else RResult.panicked "Could not send hash to peer"

/-- Processing of one instruction byte by `read_once` (source lines 133–288).
`0x21` (33, message) and `0x23` (35, file) share the length parse, the
`file_incoming` consultation (files only), the payload branches, and the
unconditional trailing hash write; any other byte fires `invalid_instr` if
set and yields `Ok(false)` with no further reads.  The `set_nonblocking`
switch and `try_clone` are modelled as succeeding. -/
def read_once_instr (env : Env) (st : Talker) (instr : Nat) (input : List RItem) :
    RResult Step :=
  if instr = 33 ∨ instr = 35 then
    let is_file : Bool := instr == 35
    match parseLenAux 15 input 0 with
    | (skip0, n_bytes, input1) =>
      let skip : Bool := if !skip0 && is_file then !(st.file_incoming n_bytes) else skip0
      if !skip && is_file then
        let filen := "transfer_" ++ toString env.nanos
        let createEvs : List Ev :=
          if env.fcreateOk then []
          else if st.file_failed then [Ev.fileFailed filen EKind.permissionDenied] else []
        match fileLoopAux env env.fcreateOk st.file_failed filen (n_bytes + 1) n_bytes input1 with
        | (loopEvs, hashed, input2) =>
          let completeEvs : List Ev :=
            if st.file_complete then [Ev.fileComplete filen] else []
          match readExact 33 input2 with
          | (Except.ok t, input3) =>
            finishHash env st true filen hashed input3
              (createEvs ++ loopEvs ++ completeEvs ++
                (if st.file_hash_by_peer then [Ev.fileHashByPeer filen (t.drop 1)] else []))
          | (Except.error _, input3) =>
            finishHash env st true filen hashed input3 (createEvs ++ loopEvs ++ completeEvs)
      else if !skip && !is_file then
        if n_bytes ≤ 1024 * 1024 then
          match readExact n_bytes input1 with
          | (Except.ok m, input2) =>
            finishHash env st false "" m input2 (if st.msg_new then [Ev.msgNew m] else [])
          | (Except.error _, input2) => finishHash env st false "" [] input2 []
        else
          finishHash env st false "" [] input1
            (if st.payload_too_large then [Ev.payloadTooLarge n_bytes] else [])
      else finishHash env st is_file "" [] input1 []
  else
    RResult.ok
      { ret := false, st := st, input := input, out := []
        evs := if st.invalid_instr then [Ev.invalidInstr instr] else [] }

/-- `Talker::read_once` (source lines 111–289).  The instruction byte comes
from the pushback queue if non-empty — which the source does NOT clear —
else from the transport: a `WouldBlock` read error yields `Ok(false)`, any
other read error propagates, and a zero-byte read (EOF) yields a
`NotConnected` error. -/
def read_once (env : Env) (st : Talker) (input : List RItem) : RResult Step :=
  match st.queue with
  | some ch => read_once_instr env st ch input
  | none =>
    match input with
    | [] => RResult.err EKind.notConnected
    | RItem.err k :: rest =>
      if k = EKind.wouldBlock then RResult.ok { ret := false, st := st, input := rest, out := [], evs := [] }
      else RResult.err k
    | RItem.byte b :: rest => read_once_instr env st b rest

/-- `Talker::send` (source lines 302–315): write `"!{len}\n"` then the
message bytes (propagating write errors), hash the message bytes, and fire
`hash_of_sent` with the digest if set.  Returns the bytes written and the
events fired. -/
def send (env : Env) (st : Talker) (m : List Nat) : RResult (List Nat × List Ev) :=
  if env.writeOk then
    RResult.ok (33 :: asciiDec m.length ++ 10 :: m,
      if st.hash_of_sent then [Ev.hashOfSent (env.H m)] else [])
  else RResult.err EKind.brokenPipe

/-- The reader loop of `send_stream`: the reader yields successive chunks
(each at most the 1024-byte buffer); a zero-length read ends the loop. -/
def sendChunks : List (List Nat) → List Nat
  | [] => []
  | c :: cs => if c.isEmpty then [] else c ++ sendChunks cs

/-- `Talker::send_stream` (source lines 318–345): write `"#{len}\n"` with the
caller-supplied length representation, stream the reader's chunks while
hashing them, append `0x3D ++ digest`, and fire `hash_of_sent` if set. -/
def send_stream (env : Env) (st : Talker) (chunks : List (List Nat))
    (lenRepr : List Nat) : RResult (List Nat × List Ev) :=
  if env.writeOk then
    let payload := sendChunks chunks
    RResult.ok (35 :: lenRepr ++ 10 :: (payload ++ 61 :: env.H payload),
      if st.hash_of_sent then [Ev.hashOfSent (env.H payload)] else [])
  else RResult.err EKind.brokenPipe

/-- Outcome of `expect_hash`: result, engine state, remaining input, events. -/
structure HStep where
  res : RResult Unit
  st : Talker
  input : List RItem
  evs : List Ev

/-- `Talker::expect_hash` (source lines 348–368): read one byte; on `0x3D`
read 32 more (propagating that read's error), fire `hash_rcvd` if set, and
succeed.  On any other byte, store it in the pushback queue and return an
`Other` error; a failed first read also returns the `Other` error. -/
def expect_hash (st : Talker) (input : List RItem) : HStep :=
  match readExact 1 input with
  | (Except.ok l, rest) =>
    match l with
    | b :: _ =>
      if b = 61 then
        match readExact 32 rest with
        | (Except.ok d, rest2) =>
          { res := RResult.ok (), st := st, input := rest2
            evs := if st.hash_rcvd then [Ev.hashRcvd d] else [] }
        | (Except.error k, rest2) =>
          { res := RResult.err k, st := st, input := rest2, evs := [] }
      else
        { res := RResult.err EKind.other, st := { st with queue := some b }
          input := rest, evs := [] }
    | [] => { res := RResult.err EKind.other, st := st, input := rest, evs := [] }
  | (Except.error _, rest) =>
    { res := RResult.err EKind.other, st := st, input := rest, evs := [] }

/-- Outcome of `close`: result, engine state, events, and whether the
transport shutdown was reached. -/
structure CStep where
  res : RResult Unit
  st : Talker
  evs : List Ev
  didShutdown : Bool

/-- `Talker::close` (source lines 81–90): return `Ok` at once when already
closed; otherwise fire `chat_close` AND set the closed flag only when the
callback is set (the source assigns `closed = true` inside the `if let`),
then shut down the transport (modelled as succeeding). -/
def close (st : Talker) : CStep :=
  if st.closed then { res := RResult.ok (), st := st, evs := [], didShutdown := false }
  else if st.chat_close then
    { res := RResult.ok (), st := { st with closed := true }, evs := [Ev.chatClose]
      didShutdown := true }
  else { res := RResult.ok (), st := st, evs := [], didShutdown := true }

/-! ### Concrete instances used by witnesses and counterexamples -/

/-- A concrete environment: a stand-in digest function of the correct output
size, a fixed clock, and all externals succeeding. -/
def envW : Env :=
  { H := fun _ => List.replicate 32 0, nanos := 7, fcreateOk := true, fwriteOk := true
    writeOk := true }

/-- `envW` with transport writes failing. -/
def envBad : Env := { envW with writeOk := false }

/-- A receiver with `msg_new` registered. -/
def tB1 : Talker := { Talker.new with msg_new := true }

/-- An engine with `chat_close` registered. -/
def tC2 : Talker := { Talker.new with chat_close := true }

/-- An engine whose pushback queue holds the instruction byte `0x21` (as left
by an `expect_hash` that read it while awaiting a hash), with `msg_new` set. -/
def tQ : Talker := { Talker.new with queue := some 33, msg_new := true }

/-- A sender awaiting an acknowledgement, with `hash_rcvd` registered. -/
def t4A : Talker := { Talker.new with hash_rcvd := true }

/-- A receiver accepting file transfers, with `file_complete` and
`file_hash_by_peer` registered. -/
def t7 : Talker :=
  { Talker.new with
    file_incoming := fun _ => true, file_complete := true, file_hash_by_peer := true }

/-- An engine with `payload_too_large` and `msg_new` registered. -/
def t6 : Talker := { Talker.new with payload_too_large := true, msg_new := true }

/-- An engine with `hash_of_sent` registered. -/
def t8 : Talker := { Talker.new with hash_of_sent := true }

/-- An engine with `invalid_instr` registered. -/
def t10 : Talker := { Talker.new with invalid_instr := true }

/-! ### Helper lemmas about the framing primitives -/

theorem readExact_take (k : Nat) :
    ∀ (l : List Nat) (rest : List RItem), k ≤ l.length →
      readExact k (l.map RItem.byte ++ rest) =
        (Except.ok (l.take k), (l.drop k).map RItem.byte ++ rest) := by
  induction k with
  | zero => intro l rest _; simp [readExact]
  | succ k ih =>
    intro l rest h
    cases l with
    | nil => simp at h
    | cons b l' =>
      simp only [List.map_cons, List.cons_append, readExact, List.append_eq]
      rw [ih l' rest (by simpa using h)]
      simp

theorem readExact_append (l : List Nat) (rest : List RItem) :
    readExact l.length (l.map RItem.byte ++ rest) = (Except.ok l, rest) := by
  rw [readExact_take l.length l rest (le_refl _)]
  simp

theorem parseLenAux_digits (t : Nat) (ht : t = 10 ∨ t = 32) :
    ∀ (ds : List Nat) (fuel acc : Nat) (rest : List RItem),
      (∀ d ∈ ds, 48 ≤ d ∧ d ≤ 57) → ds.length < fuel →
      parseLenAux fuel (ds.map RItem.byte ++ RItem.byte t :: rest) acc =
        (false, ds.foldl (fun a d => a * 10 + (d - 48)) acc, rest) := by
  intro ds
  induction ds with
  | nil =>
    intro fuel acc rest _ hf
    cases fuel with
    | zero => simp at hf
    | succ f => simp only [List.map_nil, List.nil_append, parseLenAux, if_pos ht, List.foldl_nil]
  | cons d ds ih =>
    intro fuel acc rest hd hf
    cases fuel with
    | zero => simp at hf
    | succ f =>
      have h48 : 48 ≤ d ∧ d ≤ 57 := hd d (List.mem_cons_self d ds)
      have hnt : ¬(d = 10 ∨ d = 32) := by omega
      simp only [List.map_cons, List.cons_append, parseLenAux, if_neg hnt, if_pos h48,
        List.foldl_cons]
      exact ih f (acc * 10 + (d - 48)) rest (fun e he => hd e (List.mem_cons_of_mem d he))
        (by simpa using Nat.lt_of_succ_lt_succ hf)

theorem parseLenAux_consumed :
    ∀ (fuel : Nat) (input : List RItem) (acc : Nat),
      input.length ≤ (parseLenAux fuel input acc).2.2.length + fuel := by
  intro fuel
  induction fuel with
  | zero => intro input acc; simp [parseLenAux]
  | succ f ih =>
    intro input acc
    match input with
    | [] => simp
    | RItem.err k :: rest =>
      have := ih rest acc
      simp only [parseLenAux, List.length_cons]
      omega
    | RItem.byte b :: rest =>
      by_cases h1 : b = 10 ∨ b = 32
      · simp only [parseLenAux, if_pos h1, List.length_cons]; omega
      · by_cases h2 : 48 ≤ b ∧ b ≤ 57
        · have := ih rest (acc * 10 + (b - 48))
          simp only [parseLenAux, if_neg h1, if_pos h2, List.length_cons]
          omega
        · simp only [parseLenAux, if_neg h1, if_neg h2, List.length_cons]; omega

theorem parseLenAux_digits_over :
    ∀ (fuel : Nat) (ds : List Nat) (acc : Nat) (rest : List RItem),
      (∀ d ∈ ds, 48 ≤ d ∧ d ≤ 57) → fuel ≤ ds.length →
      parseLenAux fuel (ds.map RItem.byte ++ rest) acc =
        (true, (ds.take fuel).foldl (fun a d => a * 10 + (d - 48)) acc,
          (ds.drop fuel).map RItem.byte ++ rest) := by
  intro fuel
  induction fuel with
  | zero => intro ds acc rest _ _; simp [parseLenAux]
  | succ f ih =>
    intro ds acc rest hd hf
    cases ds with
    | nil => simp at hf
    | cons d ds' =>
      have h48 : 48 ≤ d ∧ d ≤ 57 := hd d (List.mem_cons_self d ds')
      have hnt : ¬(d = 10 ∨ d = 32) := by omega
      simp only [List.map_cons, List.cons_append, parseLenAux, if_neg hnt, if_pos h48,
        List.take_succ_cons, List.foldl_cons, List.drop_succ_cons]
      exact ih ds' (acc * 10 + (d - 48)) rest
        (fun e he => hd e (List.mem_cons_of_mem d he)) (by simpa using hf)

theorem natDigitsAux_le_nine :
    ∀ (fuel n : Nat), n < fuel → ∀ d ∈ natDigitsAux fuel n, d ≤ 9 := by
  intro fuel
  induction fuel with
  | zero => intro n h; omega
  | succ f ih =>
    intro n h d hd
    by_cases h10 : n < 10
    · simp [natDigitsAux, h10] at hd; omega
    · simp only [natDigitsAux, if_neg h10, List.mem_append, List.mem_singleton] at hd
      rcases hd with hd | hd
      · exact ih (n / 10) (by omega) d hd
      · omega

theorem natDigitsAux_foldl :
    ∀ (fuel n acc : Nat), n < fuel →
      (natDigitsAux fuel n).foldl (fun a d => a * 10 + d) acc =
        acc * 10 ^ (natDigitsAux fuel n).length + n := by
  intro fuel
  induction fuel with
  | zero => intro n acc h; omega
  | succ f ih =>
    intro n acc h
    by_cases h10 : n < 10
    · simp [natDigitsAux, h10]
    · have hrec : n / 10 < f := by omega
      simp only [natDigitsAux, if_neg h10, List.foldl_append, List.foldl_cons, List.foldl_nil,
        List.length_append, List.length_singleton]
      rw [ih (n / 10) acc hrec]
      have : 10 ^ ((natDigitsAux f (n / 10)).length + 1) =
          10 ^ (natDigitsAux f (n / 10)).length * 10 := by
        rw [pow_succ]
      rw [this]
      generalize (10 : Nat) ^ (natDigitsAux f (n / 10)).length = P
      have := Nat.div_add_mod n 10
      nlinarith [Nat.div_add_mod n 10]

theorem natDigitsAux_length_le :
    ∀ (fuel n k : Nat), n < fuel → n < 10 ^ k → 1 ≤ k →
      (natDigitsAux fuel n).length ≤ k := by
  intro fuel
  induction fuel with
  | zero => intro n k h; omega
  | succ f ih =>
    intro n k h hk h1
    by_cases h10 : n < 10
    · simpa [natDigitsAux, h10] using h1
    · have hk2 : 2 ≤ k := by
        by_contra hlt
        interval_cases k
        · simp at hk; omega
      have hdiv : n / 10 < 10 ^ (k - 1) := by
        rw [Nat.div_lt_iff_lt_mul (by norm_num : (0:Nat) < 10)]
        calc n < 10 ^ k := hk
          _ = 10 ^ (k - 1) * 10 := by
            rw [← pow_succ]; congr 1; omega
      have hlen : (natDigitsAux f (n / 10)).length ≤ k - 1 :=
        ih (n / 10) (k - 1) (by omega) hdiv (by omega)
      simp only [natDigitsAux, if_neg h10, List.length_append, List.length_singleton]
      omega

theorem asciiDec_mem (n : Nat) : ∀ d ∈ asciiDec n, 48 ≤ d ∧ d ≤ 57 := by
  intro d hd
  simp only [asciiDec, natDigits, List.mem_map] at hd
  obtain ⟨e, he, rfl⟩ := hd
  have := natDigitsAux_le_nine (n + 1) n (Nat.lt_succ_self n) e he
  omega

theorem asciiDec_foldl (n : Nat) :
    (asciiDec n).foldl (fun a d => a * 10 + (d - 48)) 0 = n := by
  simp only [asciiDec, natDigits, List.foldl_map, Nat.add_sub_cancel]
  simpa using natDigitsAux_foldl (n + 1) n 0 (Nat.lt_succ_self n)

theorem asciiDec_length_le (n k : Nat) (h : n < 10 ^ k) (hk : 1 ≤ k) :
    (asciiDec n).length ≤ k := by
  simpa [asciiDec, natDigits] using
    natDigitsAux_length_le (n + 1) n k (Nat.lt_succ_self n) h hk

/-- A well-formed length field of at most 14 digits parses to its value with
the terminator consumed and the payload untouched. -/
theorem parseLen_frame (n : Nat) (hn : n < 10 ^ 14) (t : Nat) (ht : t = 10 ∨ t = 32)
    (rest : List RItem) :
    parseLenAux 15 ((asciiDec n).map RItem.byte ++ RItem.byte t :: rest) 0 =
      (false, n, rest) := by
  rw [parseLenAux_digits t ht (asciiDec n) 15 0 rest (asciiDec_mem n)
    (Nat.lt_succ_of_le (asciiDec_length_le n 14 hn (by norm_num)))]
  rw [asciiDec_foldl]

theorem fileLoopAux_run (env : Env) (hw : env.fwriteOk = true) (hasFp ff : Bool)
    (filen : String) :
    ∀ (fuel : Nat) (payload : List Nat) (rest : List RItem), payload.length < fuel →
      fileLoopAux env hasFp ff filen fuel payload.length (payload.map RItem.byte ++ rest) =
        ([], payload, rest) := by
  intro fuel
  induction fuel with
  | zero => intro payload rest h; omega
  | succ f ih =>
    intro payload rest h
    by_cases hle : payload.length ≤ 1024
    · have hmin : min payload.length 1024 = payload.length := by omega
      simp only [fileLoopAux, hmin, readExact_take payload.length payload rest (le_refl _)]
      simp [hw]
    · have hmin : min payload.length 1024 = 1024 := by omega
      have hlen : (payload.drop 1024).length = payload.length - 1024 := by simp
      have hrec := ih (payload.drop 1024) rest (by omega)
      rw [hlen] at hrec
      simp only [fileLoopAux, hmin, readExact_take 1024 payload rest (by omega)]
      rw [if_neg (by omega : ¬(payload.length - 1024 = 0))]
      rw [hrec]
      simp [hw]

theorem sendChunks_join :
    ∀ (chunks : List (List Nat)), (∀ c ∈ chunks, c ≠ []) →
      sendChunks chunks = List.flatten chunks := by
  intro chunks
  induction chunks with
  | nil => intro _; simp [sendChunks]
  | cons c cs ih =>
    intro h
    have hc : c ≠ [] := h c (List.mem_cons_self c cs)
    have : c.isEmpty = false := by
      cases c with
      | nil => exact absurd rfl hc
      | cons x xs => rfl
    simp only [sendChunks, this, Bool.false_eq_true, if_neg (by simp : ¬False)]
    rw [ih (fun d hd => h d (List.mem_cons_of_mem c hd))]
    simp

/-! ### Claim theorems -/

/-- Claim C1: for every message `m` of at most 1 048 576 bytes, `send m`
writes exactly `0x21`, the ASCII decimal of `m`'s byte length, `0x0A`, then
`m`'s bytes (firing `hash_of_sent` with SHA-256(`m`) if set); and an open
receiver with empty pushback queue whose `msg_new` is set consumes exactly
that frame in one `read_once`, fires `msg_new` exactly once with precisely
`m`'s payload bytes (the source lossy-decodes these very bytes into the
string passed to the callback), returns `Ok(true)`, and writes back `0x3D`
followed by the 32-byte SHA-256 digest of `m`'s bytes. -/
theorem C1_message_roundtrip (env : Env) (A B : Talker) (m : List Nat) (rest : List RItem)
    (hm : m.length ≤ 1048576) (hw : env.writeOk = true) (hq : B.queue = none)
    (hcb : B.msg_new = true) (hH : ∀ bs, (env.H bs).length = 32) :
    send env A m = RResult.ok (33 :: asciiDec m.length ++ 10 :: m,
      if A.hash_of_sent then [Ev.hashOfSent (env.H m)] else []) ∧
    read_once env B ((33 :: asciiDec m.length ++ 10 :: m).map RItem.byte ++ rest) =
      RResult.ok ⟨true, B, rest, 61 :: env.H m, [Ev.msgNew m]⟩ ∧
    (env.H m).length = 32 := by
  refine ⟨by simp [send, hw], ?_, hH m⟩
  have hn14 : m.length < 10 ^ 14 := by
    have : (10 : Nat) ^ 14 = 100000000000000 := by norm_num
    omega
  simp only [List.map_cons, List.map_append, List.cons_append, List.append_assoc]
  rw [read_once.eq_def, hq]
  simp only [read_once_instr]
  rw [parseLen_frame m.length hn14 10 (Or.inl rfl) (List.map RItem.byte m ++ rest)]
  simp [readExact_append, finishHash, hw, hcb, (by omega : m.length ≤ 1024 * 1024)]

/-- Witness for C1 at `m = "hi"` (bytes `[104, 105]`). -/
theorem C1_message_roundtrip_w :
    ([104, 105] : List Nat).length ≤ 1048576 ∧ envW.writeOk = true ∧
      tB1.queue = none ∧ tB1.msg_new = true ∧ (∀ bs, (envW.H bs).length = 32) ∧
      (send envW Talker.new [104, 105] =
          RResult.ok (33 :: asciiDec ([104, 105] : List Nat).length ++ 10 :: [104, 105],
            if Talker.new.hash_of_sent then [Ev.hashOfSent (envW.H [104, 105])] else []) ∧
        read_once envW tB1
            ((33 :: asciiDec ([104, 105] : List Nat).length ++ 10 :: [104, 105]).map
              RItem.byte ++ []) =
          RResult.ok ⟨true, tB1, [], 61 :: envW.H [104, 105], [Ev.msgNew [104, 105]]⟩ ∧
        (envW.H [104, 105]).length = 32) :=
  ⟨by decide, rfl, rfl, rfl, fun _ => rfl,
    C1_message_roundtrip envW Talker.new tB1 [104, 105] [] (by decide) rfl rfl rfl
      (fun _ => rfl)⟩

/-- Claim C2 (code bug in the source): on an engine that is open and has no
`chat_close` callback, `close` returns success and reaches the transport
shutdown but does NOT mark the engine closed — the assignment
`self.closed = true` sits inside the `if let Some(ref f) = self.chat_close`
branch — so a repeated `close` reaches the transport shutdown again.  With
`chat_close` set, the flag is set, `chat_close` fires exactly once, and the
second `close` is an early-return success. -/
theorem C2_close_not_marked :
    (close Talker.new).res = RResult.ok () ∧
    (close Talker.new).evs = [] ∧
    (close Talker.new).didShutdown = true ∧
    (close Talker.new).st.closed = false ∧
    (close (close Talker.new).st).res = RResult.ok () ∧
    (close (close Talker.new).st).evs = [] ∧
    (close (close Talker.new).st).didShutdown = true ∧
    (close tC2).res = RResult.ok () ∧
    (close tC2).st.closed = true ∧
    (close tC2).evs = [Ev.chatClose] ∧
    (close (close tC2).st).res = RResult.ok () ∧
    (close (close tC2).st).evs = [] ∧
    (close (close tC2).st).didShutdown = false :=
  ⟨rfl, rfl, rfl, rfl, rfl, rfl, rfl, rfl, rfl, rfl, rfl, rfl, rfl⟩

/-- Claim C3 (code bug in the source): `read_once` consumes the queued byte
as its instruction — here the `0x21` queued by an `expect_hash` that saw it,
shown in the last conjunct — and processes the frame from the transport, but
`read_once` never sets `queue` back to `None`: the state is returned
unchanged with `queue` still `Some 0x21`, and a further `read_once` on an
exhausted transport replays the byte yet again (producing `Ok(true)` and an
empty-input hash frame) instead of reading its instruction from the
transport, which would surface the not-connected EOF error. -/
theorem C3_queue_not_cleared :
    read_once envW tQ [RItem.byte 49, RItem.byte 10, RItem.byte 121] =
      RResult.ok ⟨true, tQ, [], 61 :: envW.H [121], [Ev.msgNew [121]]⟩ ∧
    tQ.queue = some 33 ∧
    read_once envW tQ [] = RResult.ok ⟨true, tQ, [], 61 :: envW.H [], []⟩ ∧
    (expect_hash t4A [RItem.byte 33, RItem.byte 50]).st.queue = some 33 ∧
    (expect_hash t4A [RItem.byte 33, RItem.byte 50]).res = RResult.err EKind.other :=
  ⟨rfl, rfl, rfl, rfl, rfl⟩

/-- Counterexample to claim C4: a receiver (`Talker.new`, whose
`file_incoming` rejects) handles the file frame `#3\n` followed by the
3-byte payload and the sender's trailing hash frame.  `read_once` skips the
transfer without draining it and fires no `file_complete` — but it still
writes back `0x3D` plus the digest of empty input, so the sender's
subsequent `expect_hash`, reading that frame, returns `Ok` (not the claimed
`other` error), fires `hash_rcvd`, and queues nothing. -/
theorem C4_reject_file_cex :
    read_once envW Talker.new
        ((35 :: asciiDec 3 ++ 10 :: ([1, 2, 3] ++ 61 :: envW.H [1, 2, 3])).map RItem.byte) =
      RResult.ok ⟨true, Talker.new, (([1, 2, 3] ++ 61 :: envW.H [1, 2, 3]).map RItem.byte),
        61 :: envW.H [], []⟩ ∧
    (expect_hash t4A ((61 :: envW.H []).map RItem.byte)).res = RResult.ok () ∧
    (expect_hash t4A ((61 :: envW.H []).map RItem.byte)).st.queue = none ∧
    (expect_hash t4A ((61 :: envW.H []).map RItem.byte)).evs = [Ev.hashRcvd (envW.H [])] :=
  ⟨rfl, rfl, rfl, rfl⟩

/-- Claim C4 as amended: when the receiver's `file_incoming` returns false
for the announced length, `read_once` skips the transfer without draining
the announced payload bytes and fires no `file_complete` (it does fire
`file_our_hash` with an empty name if that callback is set), but it still
writes back a hash frame over empty input; the sender's subsequent
`expect_hash` therefore succeeds, fires `hash_rcvd` with the empty-input
digest, and leaves the pushback queue untouched. -/
theorem C4_reject_file_amended (env : Env) (B A : Talker) (n : Nat)
    (rest arest : List RItem) (hq : B.queue = none) (hfi : B.file_incoming n = false)
    (hn : n < 10 ^ 14) (hw : env.writeOk = true) (hH : ∀ bs, (env.H bs).length = 32) :
    read_once env B (RItem.byte 35 :: ((asciiDec n).map RItem.byte ++ RItem.byte 10 :: rest)) =
      RResult.ok ⟨true, B, rest, 61 :: env.H [],
        if B.file_our_hash then [Ev.fileOurHash "" (env.H [])] else []⟩ ∧
    expect_hash A ((61 :: env.H []).map RItem.byte ++ arest) =
      ⟨RResult.ok (), A, arest, if A.hash_rcvd then [Ev.hashRcvd (env.H [])] else []⟩ := by
  constructor
  · rw [read_once.eq_def, hq]
    simp only [read_once_instr]
    rw [parseLen_frame n hn 10 (Or.inl rfl) rest]
    simp [hfi, finishHash, hw]
  · have h32 := readExact_append (env.H []) arest
    rw [hH []] at h32
    simp [expect_hash, readExact, List.append_eq, h32]

/-- Witness for the amended C4 at announced length 3 with a 3-byte payload
plus the sender's trailer left on the receiver's transport. -/
theorem C4_reject_file_amended_w :
    Talker.new.queue = none ∧ Talker.new.file_incoming 3 = false ∧
      (3 : Nat) < 10 ^ 14 ∧ envW.writeOk = true ∧ (∀ bs, (envW.H bs).length = 32) ∧
      (read_once envW Talker.new
          (RItem.byte 35 :: ((asciiDec 3).map RItem.byte ++ RItem.byte 10 ::
            ([1, 2, 3] ++ 61 :: envW.H [1, 2, 3]).map RItem.byte)) =
        RResult.ok ⟨true, Talker.new, ([1, 2, 3] ++ 61 :: envW.H [1, 2, 3]).map RItem.byte,
          61 :: envW.H [],
          if Talker.new.file_our_hash then [Ev.fileOurHash "" (envW.H [])] else []⟩ ∧
      expect_hash t4A ((61 :: envW.H []).map RItem.byte ++ []) =
        ⟨RResult.ok (), t4A, [], if t4A.hash_rcvd then [Ev.hashRcvd (envW.H [])] else []⟩) :=
  ⟨rfl, rfl, by norm_num, rfl, fun _ => rfl,
    C4_reject_file_amended envW Talker.new t4A 3
      (([1, 2, 3] ++ 61 :: envW.H [1, 2, 3]).map RItem.byte) [] rfl rfl (by norm_num) rfl
      (fun _ => rfl)⟩

/-- Claim C5: the length parser accepts digit bytes `0x30..=0x39`
(accumulating decimally), terminates successfully on `0x20` or `0x0A`,
aborts on any other byte, and never reads more than 16 characters; for any
frame whose length field is a run of 16 or more ASCII digits, parsing aborts
(after 15 digits) and payload ingestion is skipped with no payload byte
consumed — `read_once` still answers `Ok(true)` and the empty-input hash
frame, leaving everything after the 15th digit on the transport. -/
theorem C5_length_cap (env : Env) (st : Talker) (ds : List Nat) (rest : List RItem)
    (hd : ∀ d ∈ ds, 48 ≤ d ∧ d ≤ 57) (h16 : 16 ≤ ds.length)
    (hq : st.queue = none) (hw : env.writeOk = true) :
    (∀ (fuel acc : Nat) (r : List RItem) (t : Nat), t = 10 ∨ t = 32 →
      parseLenAux (fuel + 1) (RItem.byte t :: r) acc = (false, acc, r)) ∧
    (∀ (fuel acc : Nat) (r : List RItem) (d : Nat), 48 ≤ d → d ≤ 57 →
      parseLenAux (fuel + 1) (RItem.byte d :: r) acc =
        parseLenAux fuel r (acc * 10 + (d - 48))) ∧
    (∀ (fuel acc : Nat) (r : List RItem) (b : Nat), ¬(b = 10 ∨ b = 32) →
      ¬(48 ≤ b ∧ b ≤ 57) →
      parseLenAux (fuel + 1) (RItem.byte b :: r) acc = (true, acc, r)) ∧
    (∀ (input : List RItem) (acc : Nat),
      input.length ≤ (parseLenAux 15 input acc).2.2.length + 16) ∧
    parseLenAux 15 (ds.map RItem.byte ++ rest) 0 =
      (true, (ds.take 15).foldl (fun a d => a * 10 + (d - 48)) 0,
        (ds.drop 15).map RItem.byte ++ rest) ∧
    read_once env st (RItem.byte 33 :: (ds.map RItem.byte ++ rest)) =
      RResult.ok ⟨true, st, (ds.drop 15).map RItem.byte ++ rest, 61 :: env.H [], []⟩ ∧
    read_once env st (RItem.byte 35 :: (ds.map RItem.byte ++ rest)) =
      RResult.ok ⟨true, st, (ds.drop 15).map RItem.byte ++ rest, 61 :: env.H [],
        if st.file_our_hash then [Ev.fileOurHash "" (env.H [])] else []⟩ := by
  have hover := parseLenAux_digits_over 15 ds 0 rest hd (by omega)
  refine ⟨?_, ?_, ?_, ?_, hover, ?_, ?_⟩
  · intro fuel acc r t ht
    simp [parseLenAux, if_pos ht]
  · intro fuel acc r d h48 h57
    rw [parseLenAux, if_neg (by omega), if_pos ⟨h48, h57⟩]
  · intro fuel acc r b hb1 hb2
    rw [parseLenAux, if_neg hb1, if_neg hb2]
  · intro input acc
    have := parseLenAux_consumed 15 input acc
    omega
  · rw [read_once.eq_def, hq]
    simp only [read_once_instr]
    rw [hover]
    simp [finishHash, hw]
  · rw [read_once.eq_def, hq]
    simp only [read_once_instr]
    rw [hover]
    simp [finishHash, hw]

/-- Witness for C5 on a run of 16 `'1'` digits. -/
theorem C5_length_cap_w :
    (∀ d ∈ List.replicate 16 49, 48 ≤ d ∧ d ≤ 57) ∧
      16 ≤ (List.replicate 16 49).length ∧ Talker.new.queue = none ∧
      envW.writeOk = true ∧
      ((∀ (fuel acc : Nat) (r : List RItem) (t : Nat), t = 10 ∨ t = 32 →
        parseLenAux (fuel + 1) (RItem.byte t :: r) acc = (false, acc, r)) ∧
      (∀ (fuel acc : Nat) (r : List RItem) (d : Nat), 48 ≤ d → d ≤ 57 →
        parseLenAux (fuel + 1) (RItem.byte d :: r) acc =
          parseLenAux fuel r (acc * 10 + (d - 48))) ∧
      (∀ (fuel acc : Nat) (r : List RItem) (b : Nat), ¬(b = 10 ∨ b = 32) →
        ¬(48 ≤ b ∧ b ≤ 57) →
        parseLenAux (fuel + 1) (RItem.byte b :: r) acc = (true, acc, r)) ∧
      (∀ (input : List RItem) (acc : Nat),
        input.length ≤ (parseLenAux 15 input acc).2.2.length + 16) ∧
      parseLenAux 15 ((List.replicate 16 49).map RItem.byte ++ []) 0 =
        (true, ((List.replicate 16 49).take 15).foldl (fun a d => a * 10 + (d - 48)) 0,
          ((List.replicate 16 49).drop 15).map RItem.byte ++ []) ∧
      read_once envW Talker.new
          (RItem.byte 33 :: ((List.replicate 16 49).map RItem.byte ++ [])) =
        RResult.ok ⟨true, Talker.new, ((List.replicate 16 49).drop 15).map RItem.byte ++ [],
          61 :: envW.H [], []⟩ ∧
      read_once envW Talker.new
          (RItem.byte 35 :: ((List.replicate 16 49).map RItem.byte ++ [])) =
        RResult.ok ⟨true, Talker.new, ((List.replicate 16 49).drop 15).map RItem.byte ++ [],
          61 :: envW.H [],
          if Talker.new.file_our_hash then [Ev.fileOurHash "" (envW.H [])] else []⟩) :=
  ⟨by decide, by decide, rfl, rfl,
    C5_length_cap envW Talker.new (List.replicate 16 49) [] (by decide) (by decide)
      rfl rfl⟩

/-- Counterexample to claim C6: the message frame `!100000000000000\n`
announces the length 10¹⁴ > 1 048 576 with a 15-digit length field (16
characters with its terminator, within the wire grammar), yet `read_once`
fires no `payload_too_large` at all — the parser's cap aborts after 15
digits, so the event list is empty even though `payload_too_large` and
`msg_new` are registered; the terminator is left unread and an empty-input
hash frame is still emitted with return `Ok(true)`. -/
theorem C6_oversize_cex :
    read_once envW t6 ((33 :: asciiDec 100000000000000 ++ [10]).map RItem.byte) =
      RResult.ok ⟨true, t6, [RItem.byte 10], 61 :: envW.H [], []⟩ ∧
    1048576 < 100000000000000 :=
  ⟨rfl, by norm_num⟩

/-- Claim C6 as amended: for every inbound message frame whose announced
length is greater than 1 048 576 and written in at most 14 digits,
`read_once` fires `payload_too_large` with the announced length, fires no
`msg_new`, does not drain the announced payload bytes, still writes back a
hash frame over empty input, and returns `Ok(true)`. -/
theorem C6_oversize_amended (env : Env) (st : Talker) (n : Nat) (rest : List RItem)
    (hq : st.queue = none) (hn : 1048576 < n) (hn14 : n < 10 ^ 14)
    (hw : env.writeOk = true) (hcb : st.payload_too_large = true) :
    read_once env st
        (RItem.byte 33 :: ((asciiDec n).map RItem.byte ++ RItem.byte 10 :: rest)) =
      RResult.ok ⟨true, st, rest, 61 :: env.H [], [Ev.payloadTooLarge n]⟩ := by
  rw [read_once.eq_def, hq]
  simp only [read_once_instr]
  rw [parseLen_frame n hn14 10 (Or.inl rfl) rest]
  simp [finishHash, hw, hcb]
  exact fun h => absurd h (by omega)

/-- Witness for the amended C6 at announced length 1 048 577. -/
theorem C6_oversize_amended_w :
    t6.queue = none ∧ 1048576 < 1048577 ∧ (1048577 : Nat) < 10 ^ 14 ∧
      envW.writeOk = true ∧ t6.payload_too_large = true ∧
      read_once envW t6
          (RItem.byte 33 :: ((asciiDec 1048577).map RItem.byte ++ RItem.byte 10 :: [])) =
        RResult.ok ⟨true, t6, [], 61 :: envW.H [], [Ev.payloadTooLarge 1048577]⟩ :=
  ⟨rfl, by norm_num, by norm_num, rfl, rfl,
    C6_oversize_amended envW t6 1048577 [] rfl (by norm_num) (by norm_num) rfl rfl⟩

/-- Counterexample to claim C7: an accepted 3-byte file transfer whose
33-byte trailer begins with `0x00` (not `0x3D`) still fires
`file_hash_by_peer` with the trailing 32 bytes — the source reads the 33
bytes and never checks the leading byte. -/
theorem C7_file_trailer_cex :
    read_once envW t7
        ((35 :: asciiDec 3 ++ 10 :: ([97, 98, 99] ++ 0 :: List.replicate 32 5)).map
          RItem.byte) =
      RResult.ok ⟨true, t7, [], 61 :: envW.H [97, 98, 99],
        [Ev.fileComplete "transfer_7", Ev.fileHashByPeer "transfer_7" (List.replicate 32 5)]⟩ ∧
    (0 : Nat) ≠ 61 :=
  ⟨rfl, by decide⟩

/-- Claim C7 as amended: after an accepted file payload has been fully
consumed, `read_once` fires `file_complete` with the transfer file name,
reads a further 33 bytes, and — whenever that read succeeds, regardless of
whether the first of the 33 bytes is `0x3D` — fires `file_hash_by_peer`
with the name and the last 32 of those bytes, then writes the hash frame
and fires `file_our_hash` if set. -/
theorem C7_file_trailer_amended (env : Env) (st : Talker) (payload t33 : List Nat)
    (rest : List RItem) (hq : st.queue = none) (hacc : st.file_incoming payload.length = true)
    (hn : payload.length < 10 ^ 14) (hcr : env.fcreateOk = true) (hfw : env.fwriteOk = true)
    (hw : env.writeOk = true) (ht : t33.length = 33) (hfc : st.file_complete = true)
    (hfh : st.file_hash_by_peer = true) :
    read_once env st (RItem.byte 35 :: ((asciiDec payload.length).map RItem.byte ++
        RItem.byte 10 :: (payload.map RItem.byte ++ t33.map RItem.byte ++ rest))) =
      RResult.ok ⟨true, st, rest, 61 :: env.H payload,
        Ev.fileComplete ("transfer_" ++ toString env.nanos) ::
        Ev.fileHashByPeer ("transfer_" ++ toString env.nanos) (t33.drop 1) ::
        (if st.file_our_hash then
          [Ev.fileOurHash ("transfer_" ++ toString env.nanos) (env.H payload)] else [])⟩ := by
  have hloop := fileLoopAux_run env hfw env.fcreateOk st.file_failed
    ("transfer_" ++ toString env.nanos) (payload.length + 1) payload
    (t33.map RItem.byte ++ rest) (Nat.lt_succ_self _)
  have h33 := readExact_append t33 rest
  rw [ht] at h33
  rw [hcr] at hloop
  rw [read_once.eq_def, hq]
  simp only [read_once_instr]
  simp only [parseLen_frame payload.length hn 10 (Or.inl rfl)]
  simp [hacc, hcr, hloop, h33, finishHash, hw, hfc, hfh]

/-- Witness for the amended C7: payload `"abc"`, trailer led by `0x3D`. -/
theorem C7_file_trailer_amended_w :
    t7.queue = none ∧ t7.file_incoming ([97, 98, 99] : List Nat).length = true ∧
      ([97, 98, 99] : List Nat).length < 10 ^ 14 ∧ envW.fcreateOk = true ∧
      envW.fwriteOk = true ∧ envW.writeOk = true ∧
      (61 :: List.replicate 32 5 : List Nat).length = 33 ∧ t7.file_complete = true ∧
      t7.file_hash_by_peer = true ∧
      read_once envW t7 (RItem.byte 35 ::
          ((asciiDec ([97, 98, 99] : List Nat).length).map RItem.byte ++ RItem.byte 10 ::
            (([97, 98, 99] : List Nat).map RItem.byte ++
              (61 :: List.replicate 32 5 : List Nat).map RItem.byte ++ []))) =
        RResult.ok ⟨true, t7, [], 61 :: envW.H [97, 98, 99],
          Ev.fileComplete ("transfer_" ++ toString envW.nanos) ::
          Ev.fileHashByPeer ("transfer_" ++ toString envW.nanos)
            ((61 :: List.replicate 32 5 : List Nat).drop 1) ::
          (if t7.file_our_hash then
            [Ev.fileOurHash ("transfer_" ++ toString envW.nanos) (envW.H [97, 98, 99])]
          else [])⟩ :=
  ⟨rfl, rfl, by norm_num, rfl, rfl, rfl, by decide, rfl, rfl,
    C7_file_trailer_amended envW t7 [97, 98, 99] (61 :: List.replicate 32 5) [] rfl rfl
      (by norm_num) rfl rfl rfl (by decide) rfl rfl⟩

/-- Claim C8: for every reader (a sequence of non-empty chunks of at most
the 1024-byte buffer, ending in EOF) and every caller-supplied length
representation, `send_stream` writes `0x23`, the length representation,
`0x0A`, every byte the reader produces, and then `0x3D` followed by the
32-byte SHA-256 digest of exactly the streamed bytes; it fires
`hash_of_sent` with that digest if set and returns success. -/
theorem C8_send_stream (env : Env) (st : Talker) (chunks : List (List Nat))
    (lenRepr : List Nat) (hw : env.writeOk = true)
    (hc : ∀ c ∈ chunks, c ≠ [] ∧ c.length ≤ 1024) (hH : ∀ bs, (env.H bs).length = 32) :
    send_stream env st chunks lenRepr =
      RResult.ok (35 :: lenRepr ++ 10 :: (chunks.flatten ++ 61 :: env.H chunks.flatten),
        if st.hash_of_sent then [Ev.hashOfSent (env.H chunks.flatten)] else []) ∧
    (env.H chunks.flatten).length = 32 := by
  have hj := sendChunks_join chunks (fun c h => (hc c h).1)
  exact ⟨by simp [send_stream, hw, hj], hH _⟩

/-- Witness for C8: a reader yielding `[1, 2]` then `[3]`, `len_repr = "3"`. -/
theorem C8_send_stream_w :
    envW.writeOk = true ∧
      (∀ c ∈ [[1, 2], [3]] , c ≠ [] ∧ List.length c ≤ 1024) ∧
      (∀ bs, (envW.H bs).length = 32) ∧
      (send_stream envW t8 [[1, 2], [3]] [51] =
          RResult.ok (35 :: [51] ++ 10 ::
              (([[1, 2], [3]] : List (List Nat)).flatten ++
                61 :: envW.H ([[1, 2], [3]] : List (List Nat)).flatten),
            if t8.hash_of_sent then
              [Ev.hashOfSent (envW.H ([[1, 2], [3]] : List (List Nat)).flatten)]
            else []) ∧
        (envW.H ([[1, 2], [3]] : List (List Nat)).flatten).length = 32) :=
  ⟨rfl, by decide, fun _ => rfl,
    C8_send_stream envW t8 [[1, 2], [3]] [51] rfl (by decide) (fun _ => rfl)⟩

/-- Counterexample to claim C9: on a well-formed empty message frame
(`!0\n`) with the transport's write side failing, `read_once` does not
return the write error as an `Err` — the source calls
`.expect("Could not send hash to peer")` on the hash-frame write, aborting
the process. -/
theorem C9_io_errors_cex :
    read_once envBad Talker.new [RItem.byte 33, RItem.byte 48, RItem.byte 10] =
      RResult.panicked "Could not send hash to peer" := rfl

/-- Claim C9 as amended: `read_once` surfaces a would-block result on the
instruction-byte read as `Ok(false)`; surfaces EOF (a zero-byte read) there
as a not-connected error; propagates every other I/O error on the
instruction-byte read as an `Err` return; but a failure of the write of the
outgoing hash frame aborts the process (panic) instead of returning `Err`. -/
theorem C9_io_errors_amended (env : Env) (st : Talker) (rest : List RItem) (k : EKind)
    (hq : st.queue = none) (hk : k ≠ EKind.wouldBlock) (hwf : env.writeOk = false) :
    read_once env st (RItem.err EKind.wouldBlock :: rest) =
      RResult.ok ⟨false, st, rest, [], []⟩ ∧
    read_once env st [] = RResult.err EKind.notConnected ∧
    read_once env st (RItem.err k :: rest) = RResult.err k ∧
    read_once env st (RItem.byte 33 :: RItem.byte 48 :: RItem.byte 10 :: rest) =
      RResult.panicked "Could not send hash to peer" := by
  refine ⟨?_, ?_, ?_, ?_⟩
  · rw [read_once.eq_def, hq]
    simp
  · rw [read_once.eq_def, hq]
  · rw [read_once.eq_def, hq]
    simp [hk]
  · rw [read_once.eq_def, hq]
    simp [read_once_instr, parseLenAux, readExact, finishHash, hwf]

/-- Witness for the amended C9 with a generic-kind read error. -/
theorem C9_io_errors_amended_w :
    Talker.new.queue = none ∧ EKind.other ≠ EKind.wouldBlock ∧ envBad.writeOk = false ∧
      (read_once envBad Talker.new [RItem.err EKind.wouldBlock] =
          RResult.ok ⟨false, Talker.new, [], [], []⟩ ∧
        read_once envBad Talker.new [] = RResult.err EKind.notConnected ∧
        read_once envBad Talker.new [RItem.err EKind.other] = RResult.err EKind.other ∧
        read_once envBad Talker.new [RItem.byte 33, RItem.byte 48, RItem.byte 10] =
          RResult.panicked "Could not send hash to peer") :=
  ⟨rfl, by decide, rfl,
    C9_io_errors_amended envBad Talker.new [] EKind.other rfl (by decide) rfl⟩

/-- Claim C10: with an empty pushback queue, an instruction byte other than
`0x21` or `0x23` — the hash byte `0x3D` included — makes `read_once` fire
`invalid_instr` with that byte if the callback is set and return `Ok(false)`
without reading any further bytes, so a hash frame reaching `read_once`
leaves its 32 digest bytes unconsumed on the transport. -/
theorem C10_invalid_instr (env : Env) (st : Talker) (b : Nat) (rest : List RItem)
    (hq : st.queue = none) (h33 : b ≠ 33) (h35 : b ≠ 35) :
    read_once env st (RItem.byte b :: rest) =
      RResult.ok ⟨false, st, rest, [],
        if st.invalid_instr then [Ev.invalidInstr b] else []⟩ := by
  rw [read_once.eq_def, hq]
  simp only [read_once_instr]
  rw [if_neg (by tauto : ¬(b = 33 ∨ b = 35))]

/-- Witness for C10: the hash instruction byte `0x3D` followed by 32 digest
bytes, which stay on the transport. -/
theorem C10_invalid_instr_w :
    t10.queue = none ∧ (61 : Nat) ≠ 33 ∧ (61 : Nat) ≠ 35 ∧
      read_once envW t10 (RItem.byte 61 :: (List.replicate 32 0).map RItem.byte) =
        RResult.ok ⟨false, t10, (List.replicate 32 0).map RItem.byte, [],
          if t10.invalid_instr then [Ev.invalidInstr 61] else []⟩ :=
  ⟨rfl, by decide, by decide,
    C10_invalid_instr envW t10 61 ((List.replicate 32 0).map RItem.byte) rfl (by decide)
      (by decide)⟩

end Talkers
